import Mathlib

/-!
Verification of the optical Morse-code receiver (`src/lab5_3/main/main.c`).

The decoding loop in `app_main` is embedded shallowly: the process-wide
mutable variables (`state`, `duration`, `letter_buf`/`lidx`,
`word_buf`/`widx`) become a `DecoderState` record, and one iteration of
the sampling loop (after the ADC read, which is an external concern)
becomes the pure function `tick`, returning the updated state and the
optionally emitted decoded word (the `ESP_LOGI "Decoded Word"` line).
The C index counters `lidx`/`widx` are represented by the lengths of the
buffer lists, so the out-of-bounds writes the C code can perform show up
here as buffer lengths exceeding the declared capacities 16 and 64.
-/

namespace Morse

/-- Constant `SAMPLE_MS`: the sampling interval, 10 ms (`#define SAMPLE_MS 10`). -/
def SAMPLE_MS : Nat := 10

/-- Constant `threshold`: nominal on/off threshold in mV (`const int threshold = 40`). -/
def threshold : Int := 40

/-- Constant `hysteresis`: hysteresis margin in mV (`const int hysteresis = 5`). -/
def hysteresis : Int := 5

/-- Constant `dot`: nominal dot duration in ms (`const int dot = 50`). -/
def dot : Nat := 50

/-- The static Morse table `morse_table[]`, in source order. -/
def morse_table : List (String × Char) :=
  [(".-", 'A'), ("-...", 'B'), ("-.-.", 'C'), ("-..", 'D'), (".", 'E'),
   ("..-.", 'F'), ("--.", 'G'), ("....", 'H'), ("..", 'I'), (".---", 'J'),
   ("-.-", 'K'), (".-..", 'L'), ("--", 'M'), ("-.", 'N'), ("---", 'O'),
   (".--.", 'P'), ("--.-", 'Q'), (".-.", 'R'), ("...", 'S'), ("-", 'T'),
   ("..-", 'U'), ("...-", 'V'), (".--", 'W'), ("-..-", 'X'), ("-.--", 'Y'),
   ("--..", 'Z'), ("-----", '0'), (".----", '1'), ("..---", '2'), ("...--", '3'),
   ("....-", '4'), (".....", '5'), ("-....", '6'), ("--...", '7'), ("---..", '8'),
   ("----.", '9')]

/-- Function `morse_to_char`: scan `morse_table` in order for an exact string match
(`strcmp == 0`); on a match return the mapped letter, otherwise `'?'`. -/
def morse_to_char (code : String) : Char :=
  match morse_table.find? (fun p => p.1 == code) with
  | some p => p.2
  | none => '?'

/-- The two edge states of the receiver, `enum {OFF, ON}`. -/
inductive EdgeState where
  | OFF : EdgeState
  | ON : EdgeState
deriving DecidableEq, Repr

/-- The loop-carried state of `app_main`'s decoding loop: the debounced
signal level, the duration counter, and the two assembly buffers
(`letter_buf[0..lidx)` and `word_buf[0..widx)` as lists). -/
structure DecoderState where
  state : EdgeState
  duration : Nat
  letter_buf : List Char
  word_buf : List Char
deriving DecidableEq, Repr

/-- The state at loop entry: `state = OFF`, `duration = 0`, `lidx = 0`,
`widx = 0` (lines 85-89 of `main.c`). -/
def initState : DecoderState :=
  { state := EdgeState.OFF, duration := 0, letter_buf := [], word_buf := [] }

/-- One iteration of the sampling loop of `app_main` (lines 95-133), given
the calibrated voltage `volt` in mV. Returns the updated state and
`some w` when the iteration logs `Decoded Word: w`. -/
def tick (s : DecoderState) (volt : Int) : DecoderState × Option (List Char) :=
  let led_on : Bool :=
    match s.state with
    | EdgeState.OFF => decide (volt > threshold + hysteresis)
    | EdgeState.ON => decide (volt > threshold - hysteresis)
  if led_on then
    if s.state = EdgeState.OFF then
      if 5 * dot ≤ s.duration then
        let lw :=
          if 0 < s.letter_buf.length then
            ([], s.word_buf ++ [morse_to_char (String.mk s.letter_buf)])
          else
            (s.letter_buf, s.word_buf)
        let we : List Char × Option (List Char) :=
          if 0 < lw.2.length then ([], some lw.2) else (lw.2, none)
        ({ state := EdgeState.ON, duration := 0 + SAMPLE_MS,
           letter_buf := lw.1, word_buf := we.1 }, we.2)
      else if 2 * dot ≤ s.duration then
        if 0 < s.letter_buf.length then
          ({ state := EdgeState.ON, duration := 0 + SAMPLE_MS,
             letter_buf := [],
             word_buf := s.word_buf ++ [morse_to_char (String.mk s.letter_buf)] },
           none)
        else
          ({ state := EdgeState.ON, duration := 0 + SAMPLE_MS,
             letter_buf := s.letter_buf, word_buf := s.word_buf }, none)
      else
        ({ state := EdgeState.ON, duration := 0 + SAMPLE_MS,
           letter_buf := s.letter_buf, word_buf := s.word_buf }, none)
    else
      ({ state := EdgeState.ON, duration := s.duration + SAMPLE_MS,
         letter_buf := s.letter_buf, word_buf := s.word_buf }, none)
  else
    if s.state = EdgeState.ON then
      ({ state := EdgeState.OFF, duration := 0 + SAMPLE_MS,
         letter_buf :=
           s.letter_buf ++ [if s.duration < 2 * dot then '.' else '-'],
         word_buf := s.word_buf }, none)
    else
      ({ state := EdgeState.OFF, duration := s.duration + SAMPLE_MS,
         letter_buf := s.letter_buf, word_buf := s.word_buf }, none)

/-- Run the loop over a finite list of voltage samples. -/
def run (s : DecoderState) (volts : List Int) : DecoderState :=
  match volts with
  | [] => s
  | v :: rest => run (tick s v).1 rest

/-- Number of edge transitions (changes of `state`) over a run. -/
def transitions (s : DecoderState) (volts : List Int) : Nat :=
  match volts with
  | [] => 0
  | v :: rest =>
    (if (tick s v).1.state = s.state then 0 else 1) + transitions (tick s v).1 rest

/-- The letter-closing step of the word-gap branch (lines 102-107): if the
letter buffer is non-empty, look it up and append the character to the word
buffer; the result is the word buffer as it stands when the `widx > 0`
emission test runs. -/
def closeLetter (s : DecoderState) : List Char :=
  if 0 < s.letter_buf.length then
    s.word_buf ++ [morse_to_char (String.mk s.letter_buf)]
  else
    s.word_buf

/-- A voltage sample well above `threshold + hysteresis` (LED lit). -/
def hiV : Int := 100

/-- A voltage sample well below `threshold - hysteresis` (LED dark). -/
def loV : Int := 0

/-- Input of `n` repetitions of one lit sample followed by one dark sample:
each repetition is a 10 ms On pulse (a dot) ended by a 10 ms gap, too short
for any gap classification. -/
def dotPulses : Nat → List Int
  | 0 => []
  | n + 1 => hiV :: loV :: dotPulses n

/-- Helper: a code that matches no table entry falls through the scan of
`morse_table` and returns the sentinel. -/
theorem morse_to_char_not_mem (code : String)
    (h : code ∉ morse_table.map Prod.fst) : morse_to_char code = '?' := by
  have hnone : morse_table.find? (fun p => p.1 == code) = none := by
    apply List.find?_eq_none.mpr
    intro p hp hbeq
    exact h (List.mem_map.mpr ⟨p, hp, eq_of_beq hbeq⟩)
  simp [morse_to_char, hnone]

/-- C5: the symbol-table lookup is a pure total function: each of the 36
table codes maps to exactly its paired character, every string outside the
table maps to the sentinel character, and the 36 codes are pairwise
distinct strings over the dot/dash alphabet of length 1 to 5. -/
theorem morse_lookup_contract (code : String)
    (hcode : code ∉ morse_table.map Prod.fst) :
    (∀ p ∈ morse_table, morse_to_char p.1 = p.2) ∧
    morse_to_char code = '?' ∧
    morse_table.length = 36 ∧
    (morse_table.map Prod.fst).Nodup ∧
    (∀ c ∈ morse_table.map Prod.fst,
      1 ≤ c.length ∧ c.length ≤ 5 ∧ ∀ ch ∈ c.data, ch = '.' ∨ ch = '-') :=
  ⟨by decide, morse_to_char_not_mem code hcode, by decide, by decide, by decide⟩

/-- Witness for C5 at the concrete out-of-table code of six dots. -/
theorem morse_lookup_contract_witness : morse_to_char "......" = '?' :=
  (morse_lookup_contract "......" (by decide)).2.1

/-- C10: `morse_to_char` is total and deterministic over all strings, not
merely dot/dash codes of length 1 to 5: any string whatsoever that is not
one of the 36 table codes, including the empty string, overlong strings and
strings with foreign characters, yields the sentinel. -/
theorem morse_to_char_total (code : String)
    (h : code ∉ morse_table.map Prod.fst) : morse_to_char code = '?' :=
  morse_to_char_not_mem code h

/-- Witness for C10 at the empty string, an alphabetic string and an
overlong dot/dash string. -/
theorem morse_to_char_total_witness :
    morse_to_char "" = '?' ∧ morse_to_char "ABC" = '?' ∧
    morse_to_char ".-.-.-" = '?' :=
  ⟨morse_to_char_total "" (by decide), morse_to_char_total "ABC" (by decide),
   morse_to_char_total ".-.-.-" (by decide)⟩

/-- C6: hysteresis. From `OFF` the next state is `ON` exactly when the
voltage exceeds `threshold + hysteresis`; from `ON` the next state is `OFF`
exactly when the voltage is at most `threshold - hysteresis` (so any
reading in the open-closed band between the two keeps the state). -/
theorem hysteresis_transitions (s : DecoderState) (volt : Int) :
    (s.state = EdgeState.OFF →
      ((tick s volt).1.state = EdgeState.ON ↔ threshold + hysteresis < volt)) ∧
    (s.state = EdgeState.ON →
      ((tick s volt).1.state = EdgeState.OFF ↔ volt ≤ threshold - hysteresis)) := by
  constructor
  · intro h
    by_cases hv : threshold + hysteresis < volt <;>
      simp [tick, h, hv] <;> split_ifs <;> simp
  · intro h
    by_cases hv : threshold - hysteresis < volt <;>
      simp [tick, h, hv] <;> omega

/-- Witness for C6: from `OFF`, 46 mV turns the receiver on. -/
theorem hysteresis_transitions_witness :
    (tick { state := EdgeState.OFF, duration := 0, letter_buf := [],
            word_buf := [] } 46).1.state = EdgeState.ON :=
  ((hysteresis_transitions
      { state := EdgeState.OFF, duration := 0, letter_buf := [],
        word_buf := [] } 46).1 rfl).mpr (by decide)

/-- C9: startup. The loop starts with state `OFF`, zero duration and both
buffers empty, and the first tick, whatever the voltage, emits no word and
leaves both buffers empty. -/
theorem startup_no_spurious_event (volt : Int) :
    initState.state = EdgeState.OFF ∧ initState.duration = 0 ∧
    initState.letter_buf = [] ∧ initState.word_buf = [] ∧
    (tick initState volt).2 = none ∧
    (tick initState volt).1.letter_buf = [] ∧
    (tick initState volt).1.word_buf = [] := by
  refine ⟨rfl, rfl, rfl, rfl, ?_, ?_, ?_⟩ <;>
    by_cases hv : threshold + hysteresis < volt <;>
      simp [tick, initState, hv, dot]

/-- C1: on a falling edge (state `ON`, reading at most
`threshold - hysteresis`) the tick appends exactly one symbol to the letter
buffer, a dot when the accumulated On duration is below `2 * dot` and a
dash otherwise (the boundary `2 * dot` itself giving a dash), leaves the
word buffer alone, emits nothing, and restarts the duration counter (reset
to 0, then one sample period of the new Off interval is accumulated). -/
theorem on_interval_dot_dash (s : DecoderState) (volt : Int)
    (hs : s.state = EdgeState.ON) (hv : volt ≤ threshold - hysteresis) :
    (tick s volt).1.letter_buf =
      s.letter_buf ++ [if s.duration < 2 * dot then '.' else '-'] ∧
    (tick s volt).1.word_buf = s.word_buf ∧
    (tick s volt).2 = none ∧
    (tick s volt).1.duration = SAMPLE_MS ∧
    (s.duration < 2 * dot → (tick s volt).1.letter_buf = s.letter_buf ++ ['.']) ∧
    (2 * dot ≤ s.duration → (tick s volt).1.letter_buf = s.letter_buf ++ ['-']) := by
  have hv' : ¬ (threshold - hysteresis < volt) := by omega
  refine ⟨?_, ?_, ?_, ?_, ?_, ?_⟩ <;> simp [tick, hs, hv']

/-- Witness for C1: a 100 ms On interval (the exact `2 * dot` boundary)
is recorded as a dash. -/
theorem on_interval_dot_dash_witness :
    (tick { state := EdgeState.ON, duration := 100, letter_buf := [],
            word_buf := [] } 0).1.letter_buf = [] ++ ['-'] :=
  (on_interval_dot_dash
    { state := EdgeState.ON, duration := 100, letter_buf := [], word_buf := [] }
    0 rfl (by decide)).2.2.2.2.2 (by decide)

/-- C7: a rising edge ending an Off interval shorter than `2 * dot` is an
intra-letter gap: neither buffer changes, no word is emitted, and the only
effects are the state turning `ON` and the duration counter restarting. -/
theorem intra_letter_gap_no_action (s : DecoderState) (volt : Int)
    (hs : s.state = EdgeState.OFF) (hv : threshold + hysteresis < volt)
    (hd : s.duration < 2 * dot) :
    (tick s volt).1.letter_buf = s.letter_buf ∧
    (tick s volt).1.word_buf = s.word_buf ∧
    (tick s volt).2 = none ∧
    (tick s volt).1.state = EdgeState.ON ∧
    (tick s volt).1.duration = SAMPLE_MS := by
  have h5 : ¬ (5 * dot ≤ s.duration) := by omega
  have h2 : ¬ (2 * dot ≤ s.duration) := by omega
  simp [tick, hs, hv, h5, h2]

/-- Witness for C7 at a 10 ms gap before a 46 mV reading. -/
theorem intra_letter_gap_no_action_witness :
    (tick { state := EdgeState.OFF, duration := 10, letter_buf := ['.'],
            word_buf := ['E'] } 46).1.letter_buf = ['.'] :=
  (intra_letter_gap_no_action
    { state := EdgeState.OFF, duration := 10, letter_buf := ['.'],
      word_buf := ['E'] } 46 rfl (by decide) (by decide)).1

/-- C4: a rising edge ending an Off interval with
`2 * dot ≤ d < 5 * dot` is a letter gap: no word is emitted, and exactly
when the letter buffer is non-empty its code is looked up, the character is
appended to the word buffer and the letter buffer is cleared; an empty
letter buffer leaves both buffers unchanged. Because the word-gap test is
made first, a gap of at least `5 * dot` with anything buffered is never
treated as letter-gap only: it emits a word. -/
theorem letter_gap_close (s : DecoderState) (volt : Int)
    (hs : s.state = EdgeState.OFF) (hv : threshold + hysteresis < volt) :
    (2 * dot ≤ s.duration → s.duration < 5 * dot →
      (tick s volt).2 = none ∧
      (s.letter_buf ≠ [] →
        (tick s volt).1.letter_buf = [] ∧
        (tick s volt).1.word_buf =
          s.word_buf ++ [morse_to_char (String.mk s.letter_buf)]) ∧
      (s.letter_buf = [] →
        (tick s volt).1.letter_buf = s.letter_buf ∧
        (tick s volt).1.word_buf = s.word_buf)) ∧
    (5 * dot ≤ s.duration → (s.letter_buf ≠ [] ∨ s.word_buf ≠ []) →
      (tick s volt).2 ≠ none) := by
  constructor
  · intro h2 h5
    have h5' : ¬ (5 * dot ≤ s.duration) := by omega
    refine ⟨?_, ?_, ?_⟩
    · by_cases hl : 0 < s.letter_buf.length <;> simp [tick, hs, hv, h5', h2, hl]
    · intro hl
      have hl' : 0 < s.letter_buf.length := List.length_pos.mpr hl
      simp [tick, hs, hv, h5', h2, hl']
    · intro hl
      simp [tick, hs, hv, h5', h2, hl]
  · intro h5 hne
    rcases hne with hl | hw
    · have hl' : 0 < s.letter_buf.length := List.length_pos.mpr hl
      simp [tick, hs, hv, h5, hl']
    · have hw' : 0 < s.word_buf.length := List.length_pos.mpr hw
      by_cases hl : 0 < s.letter_buf.length <;>
        simp [tick, hs, hv, h5, hl, hw']

/-- Witness for C4: a 100 ms gap closes the single-dot letter into the
word buffer. -/
theorem letter_gap_close_witness :
    (tick { state := EdgeState.OFF, duration := 100, letter_buf := ['.'],
            word_buf := [] } 46).1.word_buf =
      [] ++ [morse_to_char (String.mk ['.'])] :=
  (((letter_gap_close
      { state := EdgeState.OFF, duration := 100, letter_buf := ['.'],
        word_buf := [] } 46 rfl (by decide)).1 (by decide) (by decide)).2.1
    (by decide)).2

/-- C2: a decoded word is emitted exactly on a rising edge ending an Off
interval of at least `5 * dot` whose word buffer is non-empty once the
pending letter has been closed (`closeLetter`), which holds precisely when
the letter buffer or the word buffer was non-empty; the emitted word is
the closed word buffer, and both buffers are left empty. Every other tick
emits nothing, so trailing unterminated letters or words are never
auto-flushed. -/
theorem word_emission_iff (s : DecoderState) (volt : Int) :
    (closeLetter s ≠ [] ↔ (s.letter_buf ≠ [] ∨ s.word_buf ≠ [])) ∧
    ((tick s volt).2 ≠ none ↔
      (s.state = EdgeState.OFF ∧ threshold + hysteresis < volt ∧
       5 * dot ≤ s.duration ∧ closeLetter s ≠ [])) ∧
    ((tick s volt).2 ≠ none →
      (tick s volt).2 = some (closeLetter s) ∧
      (tick s volt).1.letter_buf = [] ∧
      (tick s volt).1.word_buf = []) := by
  rcases s with ⟨st, d, lb, wb⟩
  refine ⟨?_, ?_, ?_⟩
  · by_cases hl : lb = []
    · simp [closeLetter, hl]
    · simp [closeLetter, List.length_pos.mpr hl, hl]
  · cases st with
    | ON =>
      by_cases hv : threshold - hysteresis < volt <;> simp [tick, hv]
    | OFF =>
      by_cases hv : threshold + hysteresis < volt
      · by_cases h5 : 5 * dot ≤ d
        · by_cases hl : 0 < lb.length
          · simp [tick, hv, h5, hl, closeLetter]
          · by_cases hw : 0 < wb.length
            · simp [tick, hv, h5, hl, hw, closeLetter, List.length_pos.mp hw]
            · have hw' : wb = [] := by
                simpa [List.length_eq_zero] using Nat.eq_zero_of_not_pos hw
              simp [tick, hv, h5, hl, hw, closeLetter, hw']
        · by_cases h2 : 2 * dot ≤ d <;> by_cases hl : 0 < lb.length <;>
            simp [tick, hv, h5, h2, hl]
      · simp [tick, hv]
  · cases st with
    | ON =>
      by_cases hv : threshold - hysteresis < volt <;> simp [tick, hv]
    | OFF =>
      by_cases hv : threshold + hysteresis < volt
      · by_cases h5 : 5 * dot ≤ d
        · by_cases hl : 0 < lb.length
          · simp [tick, hv, h5, hl, closeLetter]
          · have hl' : lb = [] := by
              simpa [List.length_eq_zero] using Nat.eq_zero_of_not_pos hl
            by_cases hw : 0 < wb.length <;>
              simp [tick, hv, h5, hl, hl', hw, closeLetter]
        · by_cases h2 : 2 * dot ≤ d <;> by_cases hl : 0 < lb.length <;>
            simp [tick, hv, h5, h2, hl]
      · simp [tick, hv]

/-- Witness for C2: a 250 ms gap after a buffered dot emits the
one-letter word and clears both buffers. -/
theorem word_emission_iff_witness :
    (tick { state := EdgeState.OFF, duration := 250, letter_buf := ['.'],
            word_buf := [] } 46).2 =
      some (closeLetter { state := EdgeState.OFF, duration := 250,
                          letter_buf := ['.'], word_buf := [] }) :=
  ((word_emission_iff
      { state := EdgeState.OFF, duration := 250, letter_buf := ['.'],
        word_buf := [] } 46).2.2 (by decide)).1

/-- Helper: each tick either accumulates one sample period or restarts the
counter at one sample period (reset to 0 followed by `+ SAMPLE_MS`). -/
theorem tick_duration_step (s : DecoderState) (volt : Int) :
    (tick s volt).1.duration = s.duration + SAMPLE_MS ∨
    (tick s volt).1.duration = SAMPLE_MS := by
  cases h : s.state <;> simp only [tick, h] <;> split_ifs <;> simp

/-- Helper: a duration divisible by the sample period stays divisible over
any run. -/
theorem run_duration_dvd (volts : List Int) (s : DecoderState)
    (h : SAMPLE_MS ∣ s.duration) : SAMPLE_MS ∣ (run s volts).duration := by
  induction volts generalizing s with
  | nil => simpa [run] using h
  | cons v rest ih =>
    rw [run]
    apply ih
    rcases tick_duration_step s v with h1 | h1 <;> rw [h1]
    exact Dvd.dvd.add h (dvd_refl SAMPLE_MS)

/-- Helper: the number of edge transitions over a run is at most the
number of ticks. -/
theorem transitions_le_length (volts : List Int) (s : DecoderState) :
    transitions s volts ≤ volts.length := by
  induction volts generalizing s with
  | nil => simp [transitions]
  | cons v rest ih =>
    rw [transitions, List.length_cons]
    have h := ih (tick s v).1
    split <;> omega

/-- C8: invariants of the tick loop. Each tick either adds exactly one
sample period to `duration` or restarts it at one sample period, so along
any run from startup the duration stays a (non-negative) multiple of the
sampling period; and the edge state changes at most once per tick, so a
run of `n` ticks sees at most `n` edge transitions. -/
theorem duration_and_transition_invariant (s : DecoderState) (volt : Int)
    (volts : List Int) :
    ((tick s volt).1.duration = s.duration + SAMPLE_MS ∨
     (tick s volt).1.duration = SAMPLE_MS) ∧
    SAMPLE_MS ∣ (run initState volts).duration ∧
    transitions initState volts ≤ volts.length :=
  ⟨tick_duration_step s volt,
   run_duration_dvd volts initState (Dvd.intro 0 rfl),
   transitions_le_length volts initState⟩

set_option maxRecDepth 8192 in
/-- Counterexample to C3 as stated: seventeen short On pulses separated by
intra-letter gaps drive the letter buffer to length 17, beyond the declared
capacity of `letter_buf[16]` (in the C code this is an out-of-bounds
write, since no bound is ever checked). -/
theorem letter_buf_overflow_cex :
    ¬ ((run initState (dotPulses 17)).letter_buf.length ≤ 16) := by decide

/-- Helper: from an `OFF` state one sample period into a gap, `n` dot
pulses append `n` dots to the letter buffer. -/
theorem run_dotPulses_from (n : Nat) (lb wb : List Char) :
    (run { state := EdgeState.OFF, duration := SAMPLE_MS, letter_buf := lb,
           word_buf := wb } (dotPulses n)).letter_buf =
      lb ++ List.replicate n '.' := by
  induction n generalizing lb with
  | zero => simp [dotPulses, run]
  | succ n ih =>
    show (run _ (hiV :: loV :: dotPulses n)).letter_buf = _
    rw [run, run]
    have h1 : (tick { state := EdgeState.OFF, duration := SAMPLE_MS,
                      letter_buf := lb, word_buf := wb } hiV).1 =
        { state := EdgeState.ON, duration := SAMPLE_MS, letter_buf := lb,
          word_buf := wb } := by
      simp [tick, hiV, threshold, hysteresis, dot, SAMPLE_MS]
    have h2 : (tick { state := EdgeState.ON, duration := SAMPLE_MS,
                      letter_buf := lb, word_buf := wb } loV).1 =
        { state := EdgeState.OFF, duration := SAMPLE_MS,
          letter_buf := lb ++ ['.'], word_buf := wb } := by
      simp [tick, loV, threshold, hysteresis, dot, SAMPLE_MS]
    rw [h1, h2, ih (lb ++ ['.'])]
    simp [List.replicate_succ]

/-- C3 amended: the implementation never checks either buffer's capacity;
the letter buffer grows by one symbol per completed On interval without
bound, so every length `n` is reached by the input `dotPulses n` — in
particular lengths beyond the declared capacity 16 (and likewise the word
buffer is unchecked). In the C code an append beyond the declared array
size is an out-of-bounds write, not a defined overflow behavior. -/
theorem letter_buf_unbounded (n : Nat) :
    (run initState (dotPulses n)).letter_buf = List.replicate n '.' := by
  cases n with
  | zero => simp [dotPulses, run, initState]
  | succ n =>
    show (run _ (hiV :: loV :: dotPulses n)).letter_buf = _
    rw [run, run]
    have h1 : (tick initState hiV).1 =
        { state := EdgeState.ON, duration := SAMPLE_MS, letter_buf := [],
          word_buf := [] } := by decide
    have h2 : (tick { state := EdgeState.ON, duration := SAMPLE_MS,
                      letter_buf := [], word_buf := [] } loV).1 =
        { state := EdgeState.OFF, duration := SAMPLE_MS, letter_buf := ['.'],
          word_buf := [] } := by decide
    rw [h1, h2, run_dotPulses_from n ['.'] []]
    simp [List.replicate_succ]

end Morse
